import Mathlib

/-!
Shallow embedding of the Hawk webpack plugin (the `HawkWebpackPlugin` class of
`src/index.js`) and proofs about its post-build release-upload workflow.

Modelling conventions:

* A JavaScript promise whose behaviour is fully determined by the build
  environment is modelled by its settled outcome (`Settled`), paired with the
  list of side effects (`Effect`) the computation performs, in the order one
  valid single-threaded serialization produces them.
* Host I/O (file reads, HTTP requests, `gitlog`, `fs.writeFileSync`,
  `fs.unlinkSync`, `Date.now()`) is abstracted by an environment `Env` that
  fixes the outcome of every such operation.
* JavaScript strings are modelled by Lean `String`; `String.prototype.split`
  with a one-character separator is modelled by `jsSplit`.
* The ANSI colour wrapping (`wrapInColor`) and the leading hawk-emoji prefix
  added by the `log` method are presentation only and are omitted from the
  logged message text; the message cores follow the source.
-/

namespace Hawk

/-- A JavaScript error value; the plugin only ever observes its `message`. -/
structure JsError where
  message : String
deriving DecidableEq

/-- The settled state of a promise: fulfilled with a value, or rejected with
an error. -/
inductive Settled (α : Type) where
  | fulfilled (value : α)
  | rejected (reason : JsError)
deriving DecidableEq

/-- The kind of collector request issued by `fetch`: a per-record source-map
upload (keyed by the map's asset name) or the commit-list upload. -/
inductive RequestKind where
  | mapUpload (filename : String)
  | commitsUpload
deriving DecidableEq

/-- Outcome of `JSON.parse` on a collector response body, refined to exactly
the distinctions the response handlers observe:

* `noParse` — `JSON.parse` throws; the raw body is still available.
* `parsedNull` — the body parses to `null` (body `"null"`): the
  `response && ...` guard is falsy and the later `response.message` property
  access throws a `TypeError`.
* `parsedErrorFalse` — the parsed value is truthy and its `error` field is
  `=== false`.
* `parsedOther message` — any other successfully parsed non-null value;
  `message` is the string rendering of its `message` field (the string
  `"undefined"` when the field is absent). -/
inductive ParseOutcome where
  | noParse
  | parsedNull
  | parsedErrorFalse
  | parsedOther (message : String)
deriving DecidableEq

/-- A collector response body: the raw text together with the outcome of
`JSON.parse` on it. -/
structure Body where
  raw : String
  parse : ParseOutcome
deriving DecidableEq

/-- Observable side effects of the workflow. `unlinkE` and `writeFileE` are
recorded only when the corresponding synchronous filesystem call succeeds
(i.e. they mean "the file was removed" / "the descriptor was written"). -/
inductive Effect where
  | consoleErrorE (msg : String)
  | logE (msg : String)
  | consoleTimeE (label : String)
  | consoleTimeEndE (label : String)
  | fetchE (kind : RequestKind) (release : String)
  | writeFileE (path : String) (release : String) (date : Nat)
  | unlinkE (path : String)
deriving DecidableEq

deriving instance DecidableEq for Except

/-- A determined promise computation: a settled outcome plus the effect trace
produced while the computation ran. -/
abbrev JsProm (α : Type) := Settled α × List Effect

/-- `p.then(f)` where the handler may itself return a promise; a rejection of
`p` skips the handler and passes through. -/
def thenP (p : JsProm α) (f : α → JsProm β) : JsProm β :=
  match p.1 with
  | Settled.fulfilled v => ((f v).1, p.2 ++ (f v).2)
  | Settled.rejected e => (Settled.rejected e, p.2)

/-- `p.catch(h)`: a fulfilled `p` passes through, a rejection runs the
handler. -/
def catchP (p : JsProm α) (h : JsError → JsProm α) : JsProm α :=
  match p.1 with
  | Settled.fulfilled v => (Settled.fulfilled v, p.2)
  | Settled.rejected e => ((h e).1, p.2 ++ (h e).2)

/-- The plugin's `log` method, reduced to its observable message. -/
def logP (msg : String) : JsProm Unit :=
  (Settled.fulfilled (), [Effect.logE msg])

/-- `Promise.all` over already-settled promises: fulfils with the list of
values, or rejects with the first rejection (in list order). -/
def promiseAll : List (Settled α) → Settled (List α)
  | [] => Settled.fulfilled []
  | p :: ps =>
    match p with
    | Settled.rejected e => Settled.rejected e
    | Settled.fulfilled v =>
      match promiseAll ps with
      | Settled.rejected e => Settled.rejected e
      | Settled.fulfilled vs => Settled.fulfilled (v :: vs)

/-- `p.then(onFulfilled, onRejected)` with plain-value handlers: both
branches produce a fulfilled promise. -/
def settledThen (p : Settled α) (onFulfilled : α → β) (onRejected : JsError → β) : Settled β :=
  match p with
  | Settled.fulfilled v => Settled.fulfilled (onFulfilled v)
  | Settled.rejected e => Settled.fulfilled (onRejected e)

/-- The record shape produced by the `promiseAllSettled` polyfill: a `status`
string of `"fulfilled"` or `"rejected"`, with the `value` or the `reason`. -/
structure SettleRecord (α : Type) where
  status : String
  value : Option α
  reason : Option JsError
deriving DecidableEq

/-- The record `Promise.allSettled` associates to one settled input promise. -/
def settleRecordOf : Settled α → SettleRecord α
  | Settled.fulfilled value => ⟨"fulfilled", some value, none⟩
  | Settled.rejected reason => ⟨"rejected", none, some reason⟩

/-- The plugin's `promiseAllSettled` polyfill, translated from the source:
`Promise.all(promises.map(p => Promise.resolve(p).then(value => (status
fulfilled record), error => (status rejected record))))`. -/
def promiseAllSettled (promises : List (Settled α)) : Settled (List (SettleRecord α)) :=
  promiseAll (promises.map fun p =>
    settledThen p
      (fun value => ⟨"fulfilled", some value, none⟩)
      (fun error => ⟨"rejected", none, some error⟩))

/-- The behaviour of the standard `Promise.allSettled`, written from the
spec's words: it always fulfils, with one status record per input. -/
def specPromiseAllSettled (promises : List (Settled α)) : Settled (List (SettleRecord α)) :=
  Settled.fulfilled (promises.map settleRecordOf)

/-- Core of the model of JavaScript `String.prototype.split` with a
one-character separator, on character lists: returns the segment before the
first separator and the list of remaining segments. -/
def jsSplitCore (sep : Char) : List Char → List Char × List (List Char)
  | [] => ([], [])
  | c :: cs =>
    let r := jsSplitCore sep cs
    if c = sep then ([], r.1 :: r.2) else (c :: r.1, r.2)

/-- Model of `s.split(sep)` on character lists; the result is always
non-empty, matching JavaScript (`"".split('.')` is `[""]`). -/
def jsSplitList (sep : Char) (l : List Char) : List (List Char) :=
  (jsSplitCore sep l).1 :: (jsSplitCore sep l).2

/-- Model of JavaScript `s.split(sep)` for a one-character separator. -/
def jsSplit (sep : Char) (s : String) : List String :=
  (jsSplitList sep s.toList).map List.asString

/-- Model of JavaScript `array.pop()` as used on the split result: the last
element, with a default for the (unreachable) empty case. -/
def jsPopD : List α → α → α
  | [], d => d
  | [x], _ => x
  | _ :: y :: xs, d => jsPopD (y :: xs) d

/-- A found source map: the asset's logical `name` and its filesystem
`path`. -/
structure SourceMapFound where
  name : String
  path : String
deriving DecidableEq

/-- Model of Node's `path.join(a, b)`; separator normalization performed by
the host is not modelled. -/
def pathJoin (a b : String) : String := a ++ "/" ++ b

/-- The build data the plugin reads from the webpack `Compilation` object:
its content hash, the emitted asset names (`Object.keys(compilation.assets)`
in enumeration order) and the configured output directory. -/
structure Compilation where
  hash : String
  assetNames : List String
  outputPath : String

/-- `findSourceMaps`, translated from the source: for each asset name, the
part before the first `?` is split on `.` and the last segment is compared
with `"map"`; matches are collected in order with the original name and the
joined output path. -/
def findSourceMaps (compilation : Compilation) : List SourceMapFound :=
  compilation.assetNames.filterMap fun name =>
    let filename := (jsSplit '?' name).headD ""
    let extension := jsPopD (jsSplit '.' filename) ""
    if extension = "map" then
      some { name := name, path := pathJoin compilation.outputPath name }
    else none

/-- Spec-side: "the portion of the name before the first `?`". -/
def beforeFirstChar (sep : Char) (s : String) : String :=
  (s.toList.takeWhile fun c => c != sep).asString

/-- Spec-side: "the substring after the last `.`" (read off the reversed
character list). -/
def afterLastChar (sep : Char) (s : String) : String :=
  ((s.toList.reverse.takeWhile fun c => c != sep).reverse).asString

/-- Spec-side selection predicate of the scanner claim: the substring after
the last `.` in the portion of the name before the first `?` equals
`"map"`. -/
def specSelectsMap (name : String) : Bool :=
  afterLastChar '.' (beforeFirstChar '?' name) == "map"

/-- Model of JavaScript string truthiness: every string except `""`. -/
def strTruthy (s : String) : Bool := s != ""

/-- Model of truthiness of a string-or-undefined value. -/
def jsFalsyOpt : Option String → Bool
  | none => true
  | some s => s == ""

/-- The integration token, abstracted by the outcome of base64-decoding it
and running `JSON.parse` on the decoded text:

* `notJson raw` — the decoded text is not valid JSON (`JSON.parse` throws);
* `json id` — the decoded text parses, and `id` is its `integrationId`
  field (`none` when the field is absent or not a string). -/
inductive DecodedToken where
  | notJson (raw : String)
  | json (integrationId : Option String)
deriving DecidableEq

/-- `getIntegrationId`, translated from the source: decode and parse the
token, read `integrationId`, throw on a falsy or empty value; any throw is
caught and logged with `console.error`, leaving the result `undefined`. -/
def getIntegrationId (token : DecodedToken) : Option String × List Effect :=
  match token with
  | DecodedToken.notJson _ =>
    (none, [Effect.consoleErrorE "Invalid Integration token"])
  | DecodedToken.json none =>
    (none, [Effect.consoleErrorE "Invalid Integration token"])
  | DecodedToken.json (some id) =>
    if id = "" then (none, [Effect.consoleErrorE "Invalid Integration token"])
    else (some id, [])

/-- Interpolation of a string-or-undefined value into a template literal. -/
def jsInterpolate : Option String → String
  | some s => s
  | none => "undefined"

/-- Model of JavaScript `s.startsWith(pre)`: the character sequence of
`pre` is a prefix of that of `s`. -/
def jsStartsWith (s pre : String) : Bool :=
  pre.toList.isPrefixOf s.toList

/-- The `commits` constructor argument: `true`, `false`, or a partial
options object. -/
inductive CommitsArg where
  | asBool (b : Bool)
  | asOpts (repo : Option String) (number : Option Nat)
deriving DecidableEq

/-- Resolved git options: repository path and commit count. -/
structure GitOptions where
  repo : String
  number : Nat
deriving DecidableEq

/-- Model of Node's `__dirname` inside the installed plugin package. -/
def dirnameVal : String := "/node_modules/@hawk.so/webpack-plugin/src"

/-- Constructor-time resolution of the `commits` argument: `false` disables
commit upload; `true` or an object enables it with defaults
`repo = __dirname`, `number = 5`, overridden by any provided fields. -/
def resolveCommitsArg : CommitsArg → Option GitOptions
  | CommitsArg.asBool true => some ⟨dirnameVal, 5⟩
  | CommitsArg.asBool false => none
  | CommitsArg.asOpts repo number => some ⟨repo.getD dirnameVal, number.getD 5⟩

/-- The `releaseInfoFile` constructor argument: a path string, `false`
(suppress the descriptor file), or omitted. -/
inductive ReleaseInfoFile where
  | givenPath (p : String)
  | disabled
  | notGiven
deriving DecidableEq

/-- The options object passed to the plugin constructor. -/
structure ConstructorArgs where
  integrationToken : DecodedToken
  release : Option String
  releaseInfoFile : ReleaseInfoFile
  collectorEndpoint : String
  removeSourceMaps : Bool
  commits : CommitsArg

/-- The plugin instance state established by the constructor. -/
structure HawkWebpackPlugin where
  releaseId : Option String
  releaseInfoFile : ReleaseInfoFile
  requestTimeout : Nat
  removeSourceMaps : Bool
  integrationToken : DecodedToken
  integrationId : Option String
  collectorEndpoint : String
  isHttps : Bool
  commits : Option GitOptions

/-- The constructor, translated from the source: resolves the integration id
from the token, derives the collector endpoint from it when no override is
given (`collectorEndpoint || derived`), fixes `isHttps` from the endpoint
scheme, and resolves the `commits` options. -/
def mkPlugin (args : ConstructorArgs) : HawkWebpackPlugin × List Effect :=
  let idRes := getIntegrationId args.integrationToken
  let endpoint :=
    if strTruthy args.collectorEndpoint then args.collectorEndpoint
    else "https://" ++ jsInterpolate idRes.1 ++ ".k1.hawk.so/release"
  ({ releaseId := args.release
     releaseInfoFile := args.releaseInfoFile
     requestTimeout := 50
     removeSourceMaps := args.removeSourceMaps
     integrationToken := args.integrationToken
     integrationId := idRes.1
     collectorEndpoint := endpoint
     isHttps := jsStartsWith endpoint "https"
     commits := resolveCommitsArg args.commits }, idRes.2)

/-- A commit as returned by the external `gitlog` reader. -/
structure RawCommit where
  hash : String
  subject : String
  authorEmail : String
  authorDate : String
deriving DecidableEq

/-- A commit record in the shape `findCommits` produces. -/
structure Commit where
  hash : String
  title : String
  author : String
  date : String
deriving DecidableEq

/-- The build environment: fixes the outcome of every host I/O operation the
workflow can perform. -/
structure Env where
  readFile : String → Settled String
  fetchResult : RequestKind → Settled Body
  gitlogResult : GitOptions → Except JsError (List RawCommit)
  writeFileResult : String → Except JsError Unit
  unlinkResult : String → Except JsError Unit
  now : Nat

/-- `getReleaseId`, translated from the source: the webpack compilation
hash. -/
def getReleaseId (compilation : Compilation) : String := compilation.hash

/-- The release-id resolution step of `apply` (`if (!this.releaseId)
this.releaseId = this.getReleaseId(compilation)`), instrumented with the
number of times the content-hash fallback is invoked. -/
def resolveReleaseId (releaseId : Option String) (compilation : Compilation) :
    String × Nat :=
  if jsFalsyOpt releaseId then (getReleaseId compilation, 1)
  else (releaseId.getD "", 0)

/-- `findCommits`, translated from the source: query `gitlog` with the
configured options and rename the fields. -/
def findCommits (env : Env) (opts : GitOptions) : Except JsError (List Commit) :=
  (env.gitlogResult opts).map fun commits =>
    commits.map fun commit =>
      { hash := commit.hash
        title := commit.subject
        author := commit.authorEmail
        date := commit.authorDate }

/-- The `fetch` method: issues one POST to the collector (recorded in the
trace with the request kind and the release id the multipart body carries)
and settles with the environment's response. -/
def fetch (env : Env) (kind : RequestKind) (release : String) : JsProm Body :=
  (env.fetchResult kind, [Effect.fetchE kind release])

/-- `loadSourceMapFile`: read the file's bytes, fulfilling or rejecting as
`fs.readFile` reports. -/
def loadSourceMapFile (env : Env) (filePath : String) : JsProm String :=
  (env.readFile filePath, [])

/-- The response handler of `sendOne`, translated from the source. The whole
`if`/`else` sits inside a `try`/`catch`, so:

* a truthy parse with `error === false` logs success with the map's name;
* any other successfully parsed non-null value takes the `else` branch and
  logs failure with the string rendering of its `message` field;
* a body parsing to `null` is falsy, takes the `else` branch, and the
  `response.message` access throws a `TypeError`, which the `catch` logs as
  an unparsed response with the reassigned `response` value (`"null"`);
* a body `JSON.parse` rejects is logged as an unparsed response with the raw
  body (no reassignment happened).

No branch re-throws: the handler always fulfils. -/
def handleMapResponse (name : String) (response : Body) : JsProm Unit :=
  match response.parse with
  | ParseOutcome.parsedErrorFalse =>
    (Settled.fulfilled (), [Effect.logE (name ++ " – sent")])
  | ParseOutcome.parsedOther message =>
    (Settled.fulfilled (), [Effect.logE (name ++ " – failed: " ++ message)])
  | ParseOutcome.parsedNull =>
    (Settled.fulfilled (),
      [Effect.logE ("(⌐■_■) Hawk Collector Unparsed response: \n\nnull")])
  | ParseOutcome.noParse =>
    (Settled.fulfilled (),
      [Effect.logE ("(⌐■_■) Hawk Collector Unparsed response: \n\n" ++ response.raw)])

/-- `sendOne`, translated from the source: read the file, then POST it and
handle the response; a read error is caught by the outer `catch`, a network
error by the inner one. -/
def sendOne (env : Env) (map : SourceMapFound) (releaseId : String) : JsProm Unit :=
  catchP
    (thenP (loadSourceMapFile env map.path) fun _file =>
      catchP
        (thenP (fetch env (RequestKind.mapUpload map.name) releaseId) fun response =>
          handleMapResponse map.name response)
        (fun error =>
          logP (map.name ++ " – ლ(´ڡ\x60ლ) sending failed: " ++ error.message)))
    (fun error =>
      logP ("(⌐■_■) Sending " ++ map.name ++ " failed: \n\n" ++ error.message))

/-- `Promise.all` over a list of started promise computations: every
computation's effects occur; the join settles as `promiseAll` of the
outcomes. -/
def promiseAllP (ps : List (JsProm α)) : JsProm (List α) :=
  (promiseAll (ps.map Prod.fst), (ps.map Prod.snd).flatten)

/-- `sendSourceMaps`: all per-record uploads, joined with `Promise.all`. -/
def sendSourceMaps (env : Env) (maps : List SourceMapFound) (releaseId : String) :
    JsProm (List Unit) :=
  promiseAllP (maps.map fun map => sendOne env map releaseId)

/-- The response handler of `sendCommits`, with the same four-way case
analysis as `handleMapResponse`. -/
def handleCommitsResponse (response : Body) : JsProm Unit :=
  match response.parse with
  | ParseOutcome.parsedErrorFalse =>
    (Settled.fulfilled (), [Effect.logE "Commits successfully sent"])
  | ParseOutcome.parsedOther message =>
    (Settled.fulfilled (), [Effect.logE ("Sending commits failed: " ++ message)])
  | ParseOutcome.parsedNull =>
    (Settled.fulfilled (),
      [Effect.logE ("(⌐■_■) Hawk Collector Unparsed response: \n\nnull")])
  | ParseOutcome.noParse =>
    (Settled.fulfilled (),
      [Effect.logE ("(⌐■_■) Hawk Collector Unparsed response: \n\n" ++ response.raw)])

/-- `sendCommits`, translated from the source: querying the commits happens
inside a `try`/`catch` that returns early (fulfilled) on failure; otherwise
the commit list is sent and the response handled. -/
def sendCommits (env : Env) (opts : GitOptions) (releaseId : String) : JsProm Unit :=
  match findCommits env opts with
  | Except.error e =>
    (Settled.fulfilled (),
      [Effect.logE ("(⌐■_■) Couldn\x27t get commits: " ++ e.message)])
  | Except.ok _commits =>
    thenP (logP "Founded some commits") fun _ =>
      thenP (fetch env RequestKind.commitsUpload releaseId) fun response =>
        handleCommitsResponse response

/-- `saveReleaseId`, translated from the source: `fs.writeFileSync` of the
descriptor JSON (`release` and `Date.now()`); a write error is a synchronous
throw (a rejection of the enclosing handler), a success is recorded in the
trace followed by the confirmation log line. -/
def saveReleaseId (env : Env) (releaseInfoFile : String) (releaseId : String) :
    JsProm Unit :=
  let fullPath := pathJoin releaseInfoFile "release.json"
  match env.writeFileResult fullPath with
  | Except.error e => (Settled.rejected e, [])
  | Except.ok _ =>
    (Settled.fulfilled (),
      [Effect.writeFileE fullPath releaseId env.now,
        Effect.logE ("release information saved to the " ++ fullPath)])

/-- `deleteSourceMaps`, translated from the source: a `forEach` of
`fs.unlinkSync` plus a per-file log line; a failing unlink throws
synchronously, which aborts the iteration (no later file is deleted). -/
def deleteSourceMaps (env : Env) : List SourceMapFound → JsProm Unit
  | [] => (Settled.fulfilled (), [])
  | m :: rest =>
    match env.unlinkResult m.path with
    | Except.error e => (Settled.rejected e, [])
    | Except.ok _ =>
      let r := deleteSourceMaps env rest
      (r.1, Effect.unlinkE m.path :: Effect.logE ("Map " ++ m.name ++ " deleted") :: r.2)

/-- The descriptor-writing step of the post-upload handler: skipped when
`releaseInfoFile` is `false`; otherwise the directory is the configured path
when truthy, else the webpack output directory. -/
def writeReleaseInfoStep (plugin : HawkWebpackPlugin) (env : Env)
    (compilation : Compilation) (releaseId : String) : JsProm Unit :=
  match plugin.releaseInfoFile with
  | ReleaseInfoFile.disabled => (Settled.fulfilled (), [])
  | ReleaseInfoFile.givenPath p =>
    saveReleaseId env (if strTruthy p then p else compilation.outputPath) releaseId
  | ReleaseInfoFile.notGiven => saveReleaseId env compilation.outputPath releaseId

/-- The `.then` handler chained after `sendSourceMaps` in `apply`: write the
descriptor (unless disabled), then delete the source maps (if enabled). A
synchronous throw in the write step skips the deletion. -/
def afterUploadStep (plugin : HawkWebpackPlugin) (env : Env)
    (compilation : Compilation) (releaseId : String)
    (sourceMaps : List SourceMapFound) : JsProm Unit :=
  thenP (writeReleaseInfoStep plugin env compilation releaseId) fun _ =>
    if plugin.removeSourceMaps then deleteSourceMaps env sourceMaps
    else (Settled.fulfilled (), [])

/-- The commit-upload task list built by `apply`: one task (with its generic
`catch`) when commit upload is enabled, none otherwise. -/
def commitTasks (plugin : HawkWebpackPlugin) (env : Env) (releaseId : String) :
    List (JsProm Unit) :=
  match plugin.commits with
  | some opts =>
    [catchP (sendCommits env opts releaseId) fun error =>
      logP ("(⌐■_■) Sending failed: \n\n" ++ error.message)]
  | none => []

/-- The source-map upload task built by `apply`, including the post-upload
handler and the generic `catch`. -/
def mapsTask (plugin : HawkWebpackPlugin) (env : Env) (compilation : Compilation)
    (releaseId : String) (sourceMaps : List SourceMapFound) : JsProm Unit :=
  catchP
    (thenP (sendSourceMaps env sourceMaps releaseId) fun _ =>
      afterUploadStep plugin env compilation releaseId sourceMaps)
    (fun error => logP ("(⌐■_■) Sending failed: \n\n" ++ error.message))

/-- `promiseAllSettled` over started promise computations. -/
def promiseAllSettledP (ps : List (JsProm α)) : JsProm (List (SettleRecord α)) :=
  (promiseAllSettled (ps.map Prod.fst), (ps.map Prod.snd).flatten)

/-- The label used with `console.time` / `console.timeEnd`. -/
def timerLabel : String := "🕊   Hawk Webpack Plugin"

/-- Outcome of the promise `apply` hands to webpack: the executor only ever
calls `resolve`, so the promise either resolves or stays pending forever
(the latter exactly when the `promiseAllSettled` join were to reject, since
`resolve()` is called in its `.then`). -/
inductive ApplyOutcome where
  | resolved
  | pending
deriving DecidableEq

/-- The upload phase of `apply` (the code after the empty-scan check):
build the task list, join with `promiseAllSettled`, and resolve in its
`.then` after `console.timeEnd`. -/
def uploadPhase (plugin : HawkWebpackPlugin) (env : Env)
    (compilation : Compilation) (releaseId : String)
    (sourceMaps : List SourceMapFound) : ApplyOutcome × List Effect :=
  let tasks := commitTasks plugin env releaseId ++
    [mapsTask plugin env compilation releaseId sourceMaps]
  match (promiseAllSettledP tasks).1 with
  | Settled.fulfilled _ =>
    (ApplyOutcome.resolved,
      Effect.consoleTimeE timerLabel :: (promiseAllSettledP tasks).2 ++
        [Effect.consoleTimeEndE timerLabel])
  | Settled.rejected _ =>
    (ApplyOutcome.pending,
      Effect.consoleTimeE timerLabel :: (promiseAllSettledP tasks).2)

/-- The promise executor registered on `afterEmit`, translated from the
source: guard on the integration id, resolve the release id, scan for source
maps, short-circuit if none, otherwise run the upload phase. -/
def applyModel (plugin : HawkWebpackPlugin) (env : Env)
    (compilation : Compilation) : ApplyOutcome × List Effect :=
  if jsFalsyOpt plugin.integrationId then
    (ApplyOutcome.resolved, [Effect.consoleErrorE "Invalid Integration Token passed."])
  else
    let releaseId := (resolveReleaseId plugin.releaseId compilation).1
    let sourceMaps := findSourceMaps compilation
    if sourceMaps.isEmpty then (ApplyOutcome.resolved, [])
    else uploadPhase plugin env compilation releaseId sourceMaps

/-- Claim-side: a token whose decoding does not parse as a JSON object with
a non-empty `integrationId` field. -/
def tokenLacksId : DecodedToken → Bool
  | DecodedToken.notJson _ => true
  | DecodedToken.json none => true
  | DecodedToken.json (some id) => id == ""

/-- An effect observable outside the process: a network request, a
descriptor write, or a file deletion. -/
def Effect.isExternal : Effect → Bool
  | Effect.fetchE _ _ => true
  | Effect.writeFileE _ _ _ => true
  | Effect.unlinkE _ => true
  | _ => false

/-- Claim-side: "the body parses as JSON". -/
def bodyParses (b : Body) : Bool :=
  match b.parse with
  | ParseOutcome.noParse => false
  | _ => true

/-- Claim-side: "its `error` field is `false`" (on a truthy parse). -/
def bodyErrorIsFalse (b : Body) : Bool :=
  match b.parse with
  | ParseOutcome.parsedErrorFalse => true
  | _ => false

/-- Claim-side rendering of C8's three-branch contract for the per-record
response handler: success log on a parse with `error === false`, failure log
with the `message` field on any other parse, unparsed warning with the raw
body exactly when parsing fails. -/
def specMapResponseBranches (name : String) (b : Body) (tr : List Effect) : Prop :=
  (bodyParses b = true → bodyErrorIsFalse b = true →
    tr = [Effect.logE (name ++ " – sent")]) ∧
  (bodyParses b = true → bodyErrorIsFalse b = false →
    ∃ msg, tr = [Effect.logE (name ++ " – failed: " ++ msg)]) ∧
  (bodyParses b = false →
    tr = [Effect.logE ("(⌐■_■) Hawk Collector Unparsed response: \n\n" ++ b.raw)])

/-- Fixture: an environment in which every host operation succeeds and every
response parses with `error === false`. -/
def envAllOk : Env where
  readFile := fun _ => Settled.fulfilled "sourcemap-bytes"
  fetchResult := fun _ =>
    Settled.fulfilled ⟨"collector-ok", ParseOutcome.parsedErrorFalse⟩
  gitlogResult := fun _ => Except.ok []
  writeFileResult := fun _ => Except.ok ()
  unlinkResult := fun _ => Except.ok ()
  now := 1700000000000

/-- Fixture: an environment whose only failure is that unlinking
`/dist/a.js.map` throws. -/
def envDel : Env where
  readFile := fun _ => Settled.fulfilled "sourcemap-bytes"
  fetchResult := fun _ =>
    Settled.fulfilled ⟨"collector-ok", ParseOutcome.parsedErrorFalse⟩
  gitlogResult := fun _ => Except.ok []
  writeFileResult := fun _ => Except.ok ()
  unlinkResult := fun p =>
    if p = "/dist/a.js.map" then Except.error ⟨"EPERM"⟩ else Except.ok ()
  now := 1700000000000

/-- Fixture: a plugin instance with a valid integration id, an explicit
release id, cleanup enabled, descriptor writing and commit upload
disabled. -/
def pluginA : HawkWebpackPlugin where
  releaseId := some "rel1"
  releaseInfoFile := ReleaseInfoFile.disabled
  requestTimeout := 50
  removeSourceMaps := true
  integrationToken := DecodedToken.json (some "abc123")
  integrationId := some "abc123"
  collectorEndpoint := "https://abc123.k1.hawk.so/release"
  isHttps := true
  commits := none

/-- Fixture: a build emitting one bundle and one source map. -/
def comp1 : Compilation where
  hash := "hash1"
  assetNames := ["main.js", "main.js.map"]
  outputPath := "/dist"

/-- Fixture: a build emitting no source map. -/
def compNoMaps : Compilation where
  hash := "hash2"
  assetNames := ["main.js"]
  outputPath := "/dist"

/-- Fixture: two scanned source-map records. -/
def mapA : SourceMapFound where
  name := "a.js.map"
  path := "/dist/a.js.map"

/-- Fixture: second scanned source-map record. -/
def mapB : SourceMapFound where
  name := "b.js.map"
  path := "/dist/b.js.map"

/-- Fixture: constructor options with a token lacking an `integrationId`. -/
def argsBad : ConstructorArgs where
  integrationToken := DecodedToken.json none
  release := some "rel1"
  releaseInfoFile := ReleaseInfoFile.disabled
  collectorEndpoint := ""
  removeSourceMaps := true
  commits := CommitsArg.asBool false

/-- Fixture: constructor options with a valid token and no endpoint
override. -/
def argsGood : ConstructorArgs where
  integrationToken := DecodedToken.json (some "abc123")
  release := none
  releaseInfoFile := ReleaseInfoFile.notGiven
  collectorEndpoint := ""
  removeSourceMaps := true
  commits := CommitsArg.asBool true

/-- Fixture: a response body that parses with `error === false`. -/
def bodyOkW : Body where
  raw := "collector-ok"
  parse := ParseOutcome.parsedErrorFalse

/-- Fixture: the response body `null`, which parses as JSON to `null`. -/
def bodyNullW : Body where
  raw := "null"
  parse := ParseOutcome.parsedNull

/-- Helper: the polyfill always fulfils, with the per-input status records. -/
theorem promiseAllSettled_eq (ps : List (Settled α)) :
    promiseAllSettled ps = Settled.fulfilled (ps.map settleRecordOf) := by
  induction ps with
  | nil => rfl
  | cons p ps ih =>
    simp only [promiseAllSettled, settledThen, List.map_cons, promiseAll] at ih ⊢
    cases p <;> simp [ih, settleRecordOf]

/-- Helper: the head segment of the split is the prefix before the first
separator. -/
theorem jsSplitCore_fst (sep : Char) (l : List Char) :
    (jsSplitCore sep l).1 = l.takeWhile fun c => c != sep := by
  induction l with
  | nil => rfl
  | cons c cs ih =>
    simp only [jsSplitCore, List.takeWhile_cons]
    by_cases h : c = sep <;> simp [h, ih]

/-- Helper: the split has further segments exactly when the separator occurs
in the list. -/
theorem jsSplitCore_snd_eq_nil_iff (sep : Char) (l : List Char) :
    (jsSplitCore sep l).2 = [] ↔ sep ∉ l := by
  induction l with
  | nil => simp [jsSplitCore]
  | cons c cs ih =>
    simp only [jsSplitCore]
    by_cases h : c = sep
    · simp [h]
    · simp [h, ih, fun hx : sep = c => h hx.symm]
      intro hx
      exact fun hs => h hs.symm

/-- Helper: splitting a list that does not contain the separator yields the
list itself as the only segment. -/
theorem jsSplitCore_of_not_mem (sep : Char) (l : List Char) (h : sep ∉ l) :
    jsSplitCore sep l = (l, []) := by
  induction l with
  | nil => rfl
  | cons c cs ih =>
    simp only [List.mem_cons, not_or] at h
    have hc : ¬ c = sep := fun hx => h.1 hx.symm
    simp [jsSplitCore, hc, ih h.2]

/-- Helper: `takeWhile` across an append, split on whether the first part is
all kept. -/
theorem takeWhile_append_eq (p : Char → Bool) (l₁ l₂ : List Char) :
    (l₁ ++ l₂).takeWhile p =
      if l₁.all p then l₁ ++ l₂.takeWhile p else l₁.takeWhile p := by
  induction l₁ with
  | nil => simp
  | cons c cs ih =>
    by_cases h : p c = true
    · rw [List.cons_append, List.takeWhile_cons, if_pos h, ih]
      by_cases h2 : cs.all p = true
      · rw [if_pos h2, if_pos (by simp [List.all_cons, h, h2]), List.cons_append]
      · rw [if_neg h2, if_neg (by simp [List.all_cons, h2]), List.takeWhile_cons,
          if_pos h]
    · rw [List.cons_append, List.takeWhile_cons, if_neg h,
        if_neg (by simp [List.all_cons, h]), List.takeWhile_cons, if_neg h]

/-- Helper: a list all of whose elements are kept is its own `takeWhile`. -/
theorem takeWhile_eq_self_of_all (p : Char → Bool) (l : List Char)
    (h : l.all p) : l.takeWhile p = l := by
  induction l with
  | nil => rfl
  | cons c cs ih =>
    simp only [List.all_cons, Bool.and_eq_true] at h
    simp [List.takeWhile_cons, h.1, ih h.2]

/-- Helper: popping the split list yields the suffix after the last
separator occurrence. -/
theorem jsSplitList_pop (sep : Char) (l : List Char) :
    jsPopD (jsSplitList sep l) [] =
      (l.reverse.takeWhile fun c => c != sep).reverse := by
  induction l with
  | nil => rfl
  | cons c cs ih =>
    rw [List.reverse_cons, takeWhile_append_eq]
    by_cases hc : c = sep
    · have hsplit : jsSplitList sep (c :: cs) =
          [] :: (jsSplitCore sep cs).1 :: (jsSplitCore sep cs).2 := by
        simp [jsSplitList, jsSplitCore, hc]
      rw [hsplit]
      have hpop : jsPopD ([] :: (jsSplitCore sep cs).1 :: (jsSplitCore sep cs).2)
          ([] : List Char) = jsPopD (jsSplitList sep cs) [] := rfl
      rw [hpop, ih]
      by_cases hall : cs.reverse.all (fun x => x != sep) = true
      · rw [if_pos hall, takeWhile_eq_self_of_all _ _ hall]
        subst hc
        simp
      · rw [if_neg hall]
    · by_cases hmem : sep ∈ cs
      · obtain ⟨y, ys, h2⟩ : ∃ y ys, (jsSplitCore sep cs).2 = y :: ys := by
          cases hh : (jsSplitCore sep cs).2 with
          | nil =>
            exact absurd ((jsSplitCore_snd_eq_nil_iff sep cs).mp hh)
              (by simp [hmem])
          | cons y ys => exact ⟨y, ys, rfl⟩
        have hsplit : jsSplitList sep (c :: cs) =
            (c :: (jsSplitCore sep cs).1) :: y :: ys := by
          simp [jsSplitList, jsSplitCore, hc, h2]
        have hcs : jsSplitList sep cs = (jsSplitCore sep cs).1 :: y :: ys := by
          simp [jsSplitList, h2]
        rw [hsplit]
        have hpop : jsPopD ((c :: (jsSplitCore sep cs).1) :: y :: ys)
            ([] : List Char) = jsPopD (y :: ys) [] := rfl
        have hpop2 : jsPopD (jsSplitList sep cs) ([] : List Char) =
            jsPopD (y :: ys) [] := by
          rw [hcs]
          rfl
        rw [hpop, ← hpop2, ih]
        have hnall : ¬ cs.reverse.all (fun x => x != sep) = true := by
          simp only [List.all_eq_true, not_forall]
          exact ⟨sep, by simp [hmem], by simp⟩
        rw [if_neg hnall]
      · have hfst := jsSplitCore_of_not_mem sep cs hmem
        have hsplit : jsSplitList sep (c :: cs) = [c :: cs] := by
          simp [jsSplitList, jsSplitCore, hc, hfst]
        rw [hsplit]
        have hall : cs.reverse.all (fun x => x != sep) = true := by
          simp only [List.all_eq_true]
          intro x hx
          have hxc : x ∈ cs := List.mem_reverse.mp hx
          simp only [bne_iff_ne, ne_eq]
          exact fun hxx => hmem (hxx ▸ hxc)
        rw [if_pos hall]
        have htk : List.takeWhile (fun x => x != sep) [c] = [c] := by
          simp [List.takeWhile_cons, hc]
        rw [htk]
        show c :: cs = (cs.reverse ++ [c]).reverse
        simp

/-- Helper: `jsPopD` commutes with `map` when the default is the image of
the default. -/
theorem jsPopD_map (f : List Char → String) (l : List (List Char))
    (d : List Char) : jsPopD (l.map f) (f d) = f (jsPopD l d) := by
  induction l generalizing d with
  | nil => rfl
  | cons x xs ih =>
    cases xs with
    | nil => rfl
    | cons y ys =>
      show jsPopD ((y :: ys).map f) (f d) = f (jsPopD (y :: ys) d)
      exact ih d

/-- Helper: round trip between `List.asString` and `String.toList`. -/
theorem toList_asString (l : List Char) : (List.asString l).toList = l := rfl

/-- Helper: the extension the code computes equals the spec-side "substring
after the last `.` of the portion before the first `?`". -/
theorem code_extension_eq_spec (name : String) :
    jsPopD (jsSplit '.' ((jsSplit '?' name).headD "")) "" =
      afterLastChar '.' (beforeFirstChar '?' name) := by
  have hhead : (jsSplit '?' name).headD "" = beforeFirstChar '?' name := by
    simp [jsSplit, jsSplitList, beforeFirstChar, jsSplitCore_fst]
  rw [hhead]
  have hdef : jsSplit '.' (beforeFirstChar '?' name) =
      (jsSplitList '.' (beforeFirstChar '?' name).toList).map List.asString := rfl
  rw [hdef, show ("" : String) = List.asString [] from rfl,
    jsPopD_map List.asString _ [], jsSplitList_pop]
  rfl

/-- Helper: `sendOne` always fulfils — every failure mode (read error,
network error, response-parse failure) is caught inside it. -/
theorem sendOne_fst (env : Env) (map : SourceMapFound) (releaseId : String) :
    (sendOne env map releaseId).1 = Settled.fulfilled () := by
  cases hr : env.readFile map.path with
  | rejected err => simp [sendOne, catchP, thenP, loadSourceMapFile, logP, hr]
  | fulfilled f =>
    cases hf : env.fetchResult (RequestKind.mapUpload map.name) with
    | rejected err =>
      simp [sendOne, catchP, thenP, loadSourceMapFile, fetch, logP, hr, hf]
    | fulfilled body =>
      cases hp : body.parse <;>
        simp [sendOne, catchP, thenP, loadSourceMapFile, fetch, logP,
          handleMapResponse, hr, hf, hp]

/-- Helper: `sendSourceMaps` always fulfils, with one unit value per map. -/
theorem sendSourceMaps_fst (env : Env) (maps : List SourceMapFound)
    (releaseId : String) :
    (sendSourceMaps env maps releaseId).1 =
      Settled.fulfilled (maps.map fun _ => ()) := by
  induction maps with
  | nil => rfl
  | cons m rest ih =>
    have h1 := sendOne_fst env m releaseId
    simp only [sendSourceMaps, promiseAllP, List.map_cons, promiseAll] at ih ⊢
    rw [h1, ih]

/-- Helper: the effects of `sendOne` are log lines and the record's own
upload request, which carries the release id it was given. -/
theorem sendOne_trace (env : Env) (map : SourceMapFound) (releaseId : String) :
    ∀ e ∈ (sendOne env map releaseId).2,
      (∃ msg, e = Effect.logE msg) ∨
        e = Effect.fetchE (RequestKind.mapUpload map.name) releaseId := by
  intro e he
  cases hr : env.readFile map.path with
  | rejected err =>
    simp [sendOne, catchP, thenP, loadSourceMapFile, logP, hr] at he
    exact Or.inl ⟨_, he⟩
  | fulfilled f =>
    cases hf : env.fetchResult (RequestKind.mapUpload map.name) with
    | rejected err =>
      simp [sendOne, catchP, thenP, loadSourceMapFile, fetch, logP, hr, hf] at he
      rcases he with he | he
      · exact Or.inr he
      · exact Or.inl ⟨_, he⟩
    | fulfilled body =>
      cases hp : body.parse <;>
        simp [sendOne, catchP, thenP, loadSourceMapFile, fetch, logP,
          handleMapResponse, hr, hf, hp] at he <;>
        rcases he with he | he <;>
        first
          | exact Or.inr he
          | exact Or.inl ⟨_, he⟩

/-- Helper: the effects of `sendSourceMaps` are log lines and the records'
own upload requests, all carrying the given release id. -/
theorem sendSourceMaps_trace (env : Env) (maps : List SourceMapFound)
    (releaseId : String) :
    ∀ e ∈ (sendSourceMaps env maps releaseId).2,
      (∃ msg, e = Effect.logE msg) ∨
        ∃ m, m ∈ maps ∧ e = Effect.fetchE (RequestKind.mapUpload m.name) releaseId := by
  intro e he
  simp only [sendSourceMaps, promiseAllP, List.mem_flatten, List.mem_map,
    List.map_map, Function.comp] at he
  obtain ⟨l, ⟨m, hm, rfl⟩, hmem⟩ := he
  rcases sendOne_trace env m releaseId e hmem with h | h
  · exact Or.inl h
  · exact Or.inr ⟨m, hm, h⟩

/-- Helper: the effects of `sendCommits` are log lines and the commit-upload
request, which carries the release id it was given. -/
theorem sendCommits_trace (env : Env) (opts : GitOptions) (releaseId : String) :
    ∀ e ∈ (sendCommits env opts releaseId).2,
      (∃ msg, e = Effect.logE msg) ∨
        e = Effect.fetchE RequestKind.commitsUpload releaseId := by
  intro e he
  cases hg : findCommits env opts with
  | error err =>
    simp [sendCommits, hg] at he
    exact Or.inl ⟨_, he⟩
  | ok commits =>
    cases hf : env.fetchResult RequestKind.commitsUpload with
    | rejected err =>
      simp [sendCommits, hg, thenP, logP, fetch, hf] at he
      rcases he with he | he
      · exact Or.inl ⟨_, he⟩
      · exact Or.inr he
    | fulfilled body =>
      cases hp : body.parse <;>
        simp [sendCommits, hg, thenP, logP, fetch, handleCommitsResponse, hf, hp] at he <;>
        rcases he with he | he | he <;>
        first
          | exact Or.inr he
          | exact Or.inl ⟨_, he⟩

/-- Helper: the effects of the descriptor step are the descriptor write
(carrying the given release id and the environment's clock) and its log
line. -/
theorem writeReleaseInfoStep_trace (plugin : HawkWebpackPlugin) (env : Env)
    (compilation : Compilation) (releaseId : String) :
    ∀ e ∈ (writeReleaseInfoStep plugin env compilation releaseId).2,
      (∃ msg, e = Effect.logE msg) ∨
        ∃ p, e = Effect.writeFileE p releaseId env.now := by
  intro e he
  cases hrf : plugin.releaseInfoFile with
  | disabled => simp [writeReleaseInfoStep, hrf] at he
  | givenPath p =>
    simp only [writeReleaseInfoStep, hrf, saveReleaseId] at he
    revert he
    cases env.writeFileResult (pathJoin (if strTruthy p then p else compilation.outputPath)
        "release.json") with
    | error err => intro he; simp at he
    | ok u =>
      intro he
      simp at he
      rcases he with he | he
      · exact Or.inr ⟨_, he⟩
      · exact Or.inl ⟨_, he⟩
  | notGiven =>
    simp only [writeReleaseInfoStep, hrf, saveReleaseId] at he
    revert he
    cases env.writeFileResult (pathJoin compilation.outputPath "release.json") with
    | error err => intro he; simp at he
    | ok u =>
      intro he
      simp at he
      rcases he with he | he
      · exact Or.inr ⟨_, he⟩
      · exact Or.inl ⟨_, he⟩

/-- Helper: the effects of `deleteSourceMaps` are the deletions of (some
prefix of) the given records' files and their log lines. -/
theorem deleteSourceMaps_trace (env : Env) (maps : List SourceMapFound) :
    ∀ e ∈ (deleteSourceMaps env maps).2,
      (∃ msg, e = Effect.logE msg) ∨
        ∃ m, m ∈ maps ∧ e = Effect.unlinkE m.path := by
  intro e he
  induction maps with
  | nil => simp [deleteSourceMaps] at he
  | cons m rest ih =>
    revert he
    simp only [deleteSourceMaps]
    cases env.unlinkResult m.path with
    | error err => intro he; simp at he
    | ok u =>
      intro he
      simp at he
      rcases he with he | he | he
      · exact Or.inr ⟨m, by simp, he⟩
      · exact Or.inl ⟨_, he⟩
      · rcases ih he with h | ⟨m2, hm2, h⟩
        · exact Or.inl h
        · exact Or.inr ⟨m2, by simp [hm2], h⟩

/-- Helper: the effects of the post-upload handler are the descriptor write
(with the given release id), deletions of the scanned files (only when
cleanup is enabled), and log lines. -/
theorem afterUploadStep_trace (plugin : HawkWebpackPlugin) (env : Env)
    (compilation : Compilation) (releaseId : String)
    (sourceMaps : List SourceMapFound) :
    ∀ e ∈ (afterUploadStep plugin env compilation releaseId sourceMaps).2,
      (∃ msg, e = Effect.logE msg) ∨
      (∃ p, e = Effect.writeFileE p releaseId env.now) ∨
      (plugin.removeSourceMaps = true ∧
        ∃ m, m ∈ sourceMaps ∧ e = Effect.unlinkE m.path) := by
  intro e he
  simp only [afterUploadStep, thenP] at he
  revert he
  cases hw : (writeReleaseInfoStep plugin env compilation releaseId).1 with
  | rejected err =>
    intro he
    rcases writeReleaseInfoStep_trace plugin env compilation releaseId e he with h | h
    · exact Or.inl h
    · exact Or.inr (Or.inl h)
  | fulfilled v =>
    intro he
    simp only [List.mem_append] at he
    rcases he with he | he
    · rcases writeReleaseInfoStep_trace plugin env compilation releaseId e he with h | h
      · exact Or.inl h
      · exact Or.inr (Or.inl h)
    · by_cases hrm : plugin.removeSourceMaps = true
      · rw [if_pos hrm] at he
        rcases deleteSourceMaps_trace env sourceMaps e he with h | h
        · exact Or.inl h
        · exact Or.inr (Or.inr ⟨hrm, h⟩)
      · rw [if_neg hrm] at he
        simp at he

/-- Helper: the effects of the source-map upload task are per-record upload
requests (carrying the given release id), the descriptor write, deletions of
the scanned files (only when cleanup is enabled), and log lines. -/
theorem mapsTask_trace (plugin : HawkWebpackPlugin) (env : Env)
    (compilation : Compilation) (releaseId : String)
    (sourceMaps : List SourceMapFound) :
    ∀ e ∈ (mapsTask plugin env compilation releaseId sourceMaps).2,
      (∃ msg, e = Effect.logE msg) ∨
      (∃ k, e = Effect.fetchE k releaseId) ∨
      (∃ p, e = Effect.writeFileE p releaseId env.now) ∨
      (plugin.removeSourceMaps = true ∧
        ∃ m, m ∈ sourceMaps ∧ e = Effect.unlinkE m.path) := by
  intro e he
  have hinner : ∀ x ∈ (thenP (sendSourceMaps env sourceMaps releaseId) fun _ =>
      afterUploadStep plugin env compilation releaseId sourceMaps).2,
      (∃ msg, x = Effect.logE msg) ∨
      (∃ k, x = Effect.fetchE k releaseId) ∨
      (∃ p, x = Effect.writeFileE p releaseId env.now) ∨
      (plugin.removeSourceMaps = true ∧
        ∃ m, m ∈ sourceMaps ∧ x = Effect.unlinkE m.path) := by
    intro x hx
    simp only [thenP, sendSourceMaps_fst, List.mem_append] at hx
    rcases hx with hx | hx
    · rcases sendSourceMaps_trace env sourceMaps releaseId x hx with h | ⟨m, _, h⟩
      · exact Or.inl h
      · exact Or.inr (Or.inl ⟨_, h⟩)
    · rcases afterUploadStep_trace plugin env compilation releaseId sourceMaps x hx
        with h | h | h
      · exact Or.inl h
      · exact Or.inr (Or.inr (Or.inl h))
      · exact Or.inr (Or.inr (Or.inr h))
  simp only [mapsTask, catchP] at he
  revert he
  cases hres : (thenP (sendSourceMaps env sourceMaps releaseId) fun _ =>
      afterUploadStep plugin env compilation releaseId sourceMaps).1 with
  | fulfilled v =>
    intro he
    exact hinner e he
  | rejected err =>
    intro he
    simp only [logP, List.mem_append, List.mem_singleton] at he
    rcases he with he | he
    · exact hinner e he
    · exact Or.inl ⟨_, he⟩

/-- Helper: the effects of the commit-upload task list are log lines and the
commit-upload request carrying the given release id. -/
theorem commitTasks_trace (plugin : HawkWebpackPlugin) (env : Env)
    (releaseId : String) :
    ∀ t ∈ commitTasks plugin env releaseId, ∀ e ∈ t.2,
      (∃ msg, e = Effect.logE msg) ∨
        e = Effect.fetchE RequestKind.commitsUpload releaseId := by
  intro t ht e he
  revert ht
  cases hc : plugin.commits with
  | none => intro ht; simp [commitTasks, hc] at ht
  | some opts =>
    intro ht
    simp only [commitTasks, hc, List.mem_singleton] at ht
    subst ht
    revert he
    simp only [catchP]
    cases (sendCommits env opts releaseId).1 with
    | fulfilled v =>
      intro he
      exact sendCommits_trace env opts releaseId e he
    | rejected err =>
      intro he
      simp only [logP, List.mem_append, List.mem_singleton] at he
      rcases he with he | he
      · exact sendCommits_trace env opts releaseId e he
      · exact Or.inl ⟨_, he⟩

/-- Helper: the upload phase always resolves, with the timer lines wrapped
around the concatenation of all task traces. -/
theorem uploadPhase_eq (plugin : HawkWebpackPlugin) (env : Env)
    (compilation : Compilation) (releaseId : String)
    (sourceMaps : List SourceMapFound) :
    uploadPhase plugin env compilation releaseId sourceMaps =
      (ApplyOutcome.resolved,
        Effect.consoleTimeE timerLabel ::
          ((commitTasks plugin env releaseId ++
            [mapsTask plugin env compilation releaseId sourceMaps]).map Prod.snd).flatten ++
          [Effect.consoleTimeEndE timerLabel]) := by
  simp [uploadPhase, promiseAllSettledP, promiseAllSettled_eq]

/-- Helper: the trace of `apply` in the upload branch (valid integration id,
non-empty scan). -/
theorem applyModel_trace_upload (plugin : HawkWebpackPlugin) (env : Env)
    (compilation : Compilation)
    (hid : ¬ jsFalsyOpt plugin.integrationId = true)
    (hne : ¬ (findSourceMaps compilation).isEmpty = true) :
    (applyModel plugin env compilation).2 =
      Effect.consoleTimeE timerLabel ::
        ((commitTasks plugin env (resolveReleaseId plugin.releaseId compilation).1 ++
          [mapsTask plugin env compilation
            (resolveReleaseId plugin.releaseId compilation).1
            (findSourceMaps compilation)]).map Prod.snd).flatten ++
        [Effect.consoleTimeEndE timerLabel] := by
  simp [applyModel, hid, hne, uploadPhase_eq]

/-- Helper: master classification of every effect `apply` can produce — log
lines, configuration `console.error`, the timer lines, upload requests and
the descriptor write carrying the resolved release id, and (only when
cleanup is enabled) deletions of scanned records' files. -/
theorem applyModel_trace_shape (plugin : HawkWebpackPlugin) (env : Env)
    (compilation : Compilation) :
    ∀ e ∈ (applyModel plugin env compilation).2,
      (∃ msg, e = Effect.logE msg) ∨
      (∃ msg, e = Effect.consoleErrorE msg) ∨
      e = Effect.consoleTimeE timerLabel ∨
      e = Effect.consoleTimeEndE timerLabel ∨
      (∃ k, e = Effect.fetchE k (resolveReleaseId plugin.releaseId compilation).1) ∨
      (∃ p, e = Effect.writeFileE p (resolveReleaseId plugin.releaseId compilation).1 env.now) ∨
      (plugin.removeSourceMaps = true ∧
        ∃ m, m ∈ findSourceMaps compilation ∧ e = Effect.unlinkE m.path) := by
  intro e he
  by_cases hid : jsFalsyOpt plugin.integrationId = true
  · simp only [applyModel, hid, if_true, List.mem_singleton] at he
    exact Or.inr (Or.inl ⟨_, he⟩)
  · by_cases hempty : (findSourceMaps compilation).isEmpty = true
    · simp [applyModel, hid, hempty] at he
    · rw [applyModel_trace_upload plugin env compilation hid hempty] at he
      rcases List.mem_append.mp he with he | he
      · rcases List.mem_cons.mp he with he | he
        · exact Or.inr (Or.inr (Or.inl he))
        · simp only [List.mem_flatten, List.mem_map] at he
          obtain ⟨l, ⟨t, ht, rfl⟩, hmem⟩ := he
          simp only [List.mem_append, List.mem_singleton] at ht
          rcases ht with ht | ht
          · rcases commitTasks_trace plugin env
                (resolveReleaseId plugin.releaseId compilation).1 t ht e hmem with h | h
            · exact Or.inl h
            · exact Or.inr (Or.inr (Or.inr (Or.inr (Or.inl ⟨_, h⟩))))
          · subst ht
            rcases mapsTask_trace plugin env compilation
                (resolveReleaseId plugin.releaseId compilation).1
                (findSourceMaps compilation) e hmem with h | h | h | h
            · exact Or.inl h
            · exact Or.inr (Or.inr (Or.inr (Or.inr (Or.inl h))))
            · exact Or.inr (Or.inr (Or.inr (Or.inr (Or.inr (Or.inl h)))))
            · exact Or.inr (Or.inr (Or.inr (Or.inr (Or.inr (Or.inr h)))))
      · have heq : e = Effect.consoleTimeEndE timerLabel := by simpa using he
        exact Or.inr (Or.inr (Or.inr (Or.inl heq)))

/-- Helper: when every unlink succeeds, `deleteSourceMaps` fulfils and its
trace deletes (and logs) every record in order. -/
theorem deleteSourceMaps_all_ok (env : Env) (maps : List SourceMapFound)
    (h : ∀ p, env.unlinkResult p = Except.ok ()) :
    deleteSourceMaps env maps =
      (Settled.fulfilled (),
        (maps.map fun m =>
          [Effect.unlinkE m.path, Effect.logE ("Map " ++ m.name ++ " deleted")]).flatten) := by
  induction maps with
  | nil => simp [deleteSourceMaps]
  | cons m rest ih => simp [deleteSourceMaps, h m.path, ih]

/-- Helper: when every write succeeds, the descriptor step fulfils. -/
theorem writeReleaseInfoStep_fst_ok (plugin : HawkWebpackPlugin) (env : Env)
    (compilation : Compilation) (releaseId : String)
    (h : ∀ p, env.writeFileResult p = Except.ok ()) :
    (writeReleaseInfoStep plugin env compilation releaseId).1 = Settled.fulfilled () := by
  cases hrf : plugin.releaseInfoFile <;>
    simp [writeReleaseInfoStep, saveReleaseId, hrf, h]

/-- Helper: with cleanup enabled and the finalization I/O succeeding, the
source-map task's trace records the deletion of every scanned file. -/
theorem mapsTask_unlink_mem (plugin : HawkWebpackPlugin) (env : Env)
    (compilation : Compilation) (releaseId : String)
    (sourceMaps : List SourceMapFound)
    (hrm : plugin.removeSourceMaps = true)
    (hw : ∀ p, env.writeFileResult p = Except.ok ())
    (hu : ∀ p, env.unlinkResult p = Except.ok ()) :
    ∀ m ∈ sourceMaps,
      Effect.unlinkE m.path ∈
        (mapsTask plugin env compilation releaseId sourceMaps).2 := by
  intro m hm
  have hdel : Effect.unlinkE m.path ∈ (deleteSourceMaps env sourceMaps).2 := by
    rw [deleteSourceMaps_all_ok env sourceMaps hu]
    simp only [List.mem_flatten, List.mem_map]
    exact ⟨_, ⟨m, hm, rfl⟩, by simp⟩
  have hafter : Effect.unlinkE m.path ∈
      (afterUploadStep plugin env compilation releaseId sourceMaps).2 := by
    have htr : (afterUploadStep plugin env compilation releaseId sourceMaps).2 =
        (writeReleaseInfoStep plugin env compilation releaseId).2 ++
          (deleteSourceMaps env sourceMaps).2 := by
      simp [afterUploadStep, thenP,
        writeReleaseInfoStep_fst_ok plugin env compilation releaseId hw, hrm]
    rw [htr]
    exact List.mem_append.mpr (Or.inr hdel)
  have hmem2 : Effect.unlinkE m.path ∈
      (thenP (sendSourceMaps env sourceMaps releaseId) fun _ =>
        afterUploadStep plugin env compilation releaseId sourceMaps).2 := by
    have htr2 : (thenP (sendSourceMaps env sourceMaps releaseId) fun _ =>
        afterUploadStep plugin env compilation releaseId sourceMaps).2 =
        (sendSourceMaps env sourceMaps releaseId).2 ++
          (afterUploadStep plugin env compilation releaseId sourceMaps).2 := by
      simp [thenP, sendSourceMaps_fst]
    rw [htr2]
    exact List.mem_append.mpr (Or.inr hafter)
  simp only [mapsTask, catchP]
  cases hres : (thenP (sendSourceMaps env sourceMaps releaseId) fun _ =>
      afterUploadStep plugin env compilation releaseId sourceMaps).1 with
  | fulfilled v => simpa using hmem2
  | rejected err => simpa using List.mem_append.mpr (Or.inl hmem2)

/-- Helper: a derived endpoint always selects encrypted transport. -/
theorem jsStartsWith_https (s : String) :
    jsStartsWith ("https://" ++ s) "https" = true := rfl

/-- Helper: resolving the integration id of a token without a non-empty
`integrationId` field yields `undefined`. -/
theorem getIntegrationId_none (token : DecodedToken)
    (h : tokenLacksId token = true) : (getIntegrationId token).1 = none := by
  cases token with
  | notJson raw => rfl
  | json oid =>
    cases oid with
    | none => rfl
    | some id =>
      have : id = "" := by simpa [tokenLacksId] using h
      simp [getIntegrationId, this]

/-- Helper: two strings are different when a head character differs; used to
separate the handler's log lines. -/
theorem ne_append_of_head (s₁ s₂ t : String) (c₁ c₂ : Char)
    (h₁ : s₁.toList.head? = some c₁) (h₂ : s₂.toList.head? = some c₂)
    (hne : c₁ ≠ c₂) : s₂ ≠ s₁ ++ t := by
  intro h
  have hd : s₂.toList.head? = (s₁.toList ++ t.toList).head? := by
    rw [h]; rfl
  rw [h₂] at hd
  cases hl : s₁.toList with
  | nil => rw [hl] at h₁; simp at h₁
  | cons a as =>
    rw [hl] at h₁ hd
    simp only [List.head?_cons, List.cons_append, Option.some.injEq] at h₁ hd
    exact hne (by rw [← h₁, hd])

/-- **C1**: the upload coordinator's `promiseAllSettled` polyfill is a
settle-all join: it maps every input promise to a record with status
`"fulfilled"` and the value, or status `"rejected"` and the reason, fulfils
once every input has settled, and never rejects — extensionally equal to the
standard `Promise.allSettled` (`specPromiseAllSettled`). In `uploadPhase`
the orchestrator's `resolve` is reached only through the `.then` of this
join, so completion is signalled only after it fulfils and never
short-circuits on a rejection. -/
theorem claim_c1_settle_all_join {α : Type} (promises : List (Settled α)) :
    promiseAllSettled promises = specPromiseAllSettled promises := by
  rw [promiseAllSettled_eq]
  rfl

/-- **C2**: cleanup is unconditional on upload outcome. With
`removeSourceMaps` enabled, a valid integration id, and the finalization
filesystem calls succeeding, every scanned record's file is deleted whatever
the environment did to its upload (read failures, network failures, error
responses — `env` is unconstrained there); with `removeSourceMaps` disabled,
no file is ever deleted. -/
theorem claim_c2_cleanup_unconditional (plugin : HawkWebpackPlugin) (env : Env)
    (compilation : Compilation) :
    (plugin.removeSourceMaps = true →
      jsFalsyOpt plugin.integrationId = false →
      (∀ p, env.writeFileResult p = Except.ok ()) →
      (∀ p, env.unlinkResult p = Except.ok ()) →
      ∀ m ∈ findSourceMaps compilation,
        Effect.unlinkE m.path ∈ (applyModel plugin env compilation).2) ∧
    (plugin.removeSourceMaps = false →
      ∀ p, Effect.unlinkE p ∉ (applyModel plugin env compilation).2) := by
  constructor
  · intro hrm hid hw hu m hm
    have hne : ¬ (findSourceMaps compilation).isEmpty = true := by
      cases hfind : findSourceMaps compilation with
      | nil => rw [hfind] at hm; simp at hm
      | cons a as => simp [hfind]
    have hid2 : ¬ jsFalsyOpt plugin.integrationId = true := by simp [hid]
    rw [applyModel_trace_upload plugin env compilation hid2 hne]
    refine List.mem_append.mpr (Or.inl (List.mem_cons.mpr (Or.inr ?_)))
    simp only [List.mem_flatten, List.mem_map]
    refine ⟨(mapsTask plugin env compilation
        (resolveReleaseId plugin.releaseId compilation).1
        (findSourceMaps compilation)).2, ⟨_, ?_, rfl⟩, ?_⟩
    · exact List.mem_append.mpr (Or.inr (List.mem_singleton.mpr rfl))
    · exact mapsTask_unlink_mem plugin env compilation
        (resolveReleaseId plugin.releaseId compilation).1
        (findSourceMaps compilation) hrm hw hu m hm
  · intro hrm p hmem
    rcases applyModel_trace_shape plugin env compilation _ hmem with
      ⟨msg, h⟩ | ⟨msg, h⟩ | h | h | ⟨k, h⟩ | ⟨q, h⟩ | ⟨hx, _⟩
    · exact absurd h (by simp)
    · exact absurd h (by simp)
    · exact absurd h (by simp)
    · exact absurd h (by simp)
    · exact absurd h (by simp)
    · exact absurd h (by simp)
    · rw [hrm] at hx
      exact absurd hx (by simp)

/-- Witness for C2 at a concrete build: with cleanup enabled and all
finalization I/O succeeding, the scanned map's file is deleted. -/
theorem claim_c2_witness :
    Effect.unlinkE "/dist/main.js.map" ∈ (applyModel pluginA envAllOk comp1).2 :=
  (claim_c2_cleanup_unconditional pluginA envAllOk comp1).1 rfl (by decide)
    (fun _ => rfl) (fun _ => rfl)
    { name := "main.js.map", path := "/dist/main.js.map" } (by decide)

/-- **C3**: for every plugin state, every environment (hence every
combination of file-read, version-control, network, write and response-parse
failures) and every compilation, the promise `apply` hands to the host build
resolves; no upload-phase error surfaces as a rejection. -/
theorem claim_c3_workflow_always_resolves (plugin : HawkWebpackPlugin)
    (env : Env) (compilation : Compilation) :
    (applyModel plugin env compilation).1 = ApplyOutcome.resolved := by
  by_cases hid : jsFalsyOpt plugin.integrationId = true
  · simp [applyModel, hid]
  · by_cases hne : (findSourceMaps compilation).isEmpty = true
    · simp [applyModel, hid, hne]
    · simp [applyModel, hid, hne, uploadPhase_eq]

/-- **C4**: the scanner emits a record for an asset name iff the substring
after the last `.` in the portion of the name before the first `?` equals
`"map"` (`specSelectsMap`), and each record pairs the original, unstripped
name with the output directory joined to that name. -/
theorem claim_c4_scanner_characterization (compilation : Compilation) :
    findSourceMaps compilation =
      (compilation.assetNames.filter fun name => specSelectsMap name).map
        fun name =>
          { name := name, path := pathJoin compilation.outputPath name } := by
  unfold findSourceMaps
  induction compilation.assetNames with
  | nil => rfl
  | cons n rest ih =>
    simp only [List.headD_eq_head?_getD] at ih
    simp only [List.filterMap_cons, List.filter_cons]
    by_cases hsel : specSelectsMap n = true
    · have hext : jsPopD (jsSplit '.' ((jsSplit '?' n).headD "")) "" = "map" := by
        rw [code_extension_eq_spec n]
        have h2 := hsel
        unfold specSelectsMap at h2
        exact beq_iff_eq.mp h2
      have hext2 : jsPopD (jsSplit '.' ((jsSplit '?' n).head?.getD "")) "" = "map" := by
        rw [← List.headD_eq_head?_getD]
        exact hext
      simp [hext2, hsel, ih]
    · have hext : ¬ jsPopD (jsSplit '.' ((jsSplit '?' n).headD "")) "" = "map" := by
        rw [code_extension_eq_spec n]
        intro heq
        exact hsel (by unfold specSelectsMap; exact beq_iff_eq.mpr heq)
      have hext2 : ¬ jsPopD (jsSplit '.' ((jsSplit '?' n).head?.getD "")) "" = "map" := by
        rw [← List.headD_eq_head?_getD]
        exact hext
      simp [hext2, hsel, ih]

/-- **C5 counterexample**: the claim "a failed deletion does not prevent
deletion of the remaining files" fails on the code: with two records whose
first unlink throws (`envDel`), `deleteSourceMaps` rejects immediately — the
second file's unlink would have succeeded, yet it is not deleted. -/
theorem claim_c5_counterexample :
    envDel.unlinkResult "/dist/b.js.map" = Except.ok () ∧
    deleteSourceMaps envDel [mapA, mapB] = (Settled.rejected ⟨"EPERM"⟩, []) ∧
    Effect.unlinkE "/dist/b.js.map" ∉ (deleteSourceMaps envDel [mapA, mapB]).2 := by
  refine ⟨by decide, by decide, by decide⟩

/-- **C5 (amended)**: per-file isolation holds for uploads — every
per-record upload settles fulfilled whatever its own read/network/parse
failures (so one of N failing leaves the other N−1 to complete), and the
aggregate's trace is the concatenation of each record's independent trace —
but not for cleanup: a record whose deletion throws rejects
`deleteSourceMaps` at once, deleting and logging nothing further, so the
remaining files are not deleted. -/
theorem claim_c5_amended_isolation (env : Env) (releaseId : String)
    (maps : List SourceMapFound) :
    ((sendSourceMaps env maps releaseId).1 =
        Settled.fulfilled (maps.map fun _ => ())) ∧
    ((sendSourceMaps env maps releaseId).2 =
        (maps.map fun m => (sendOne env m releaseId).2).flatten) ∧
    (∀ m rest e, env.unlinkResult m.path = Except.error e →
      deleteSourceMaps env (m :: rest) = (Settled.rejected e, [])) := by
  refine ⟨sendSourceMaps_fst env maps releaseId, ?_, ?_⟩
  · simp only [sendSourceMaps, promiseAllP, List.map_map]
    rfl
  · intro m rest e he
    simp [deleteSourceMaps, he]

/-- Witness for the amended C5: a record whose unlink throws rejects the
deletion pass with an empty trace. -/
theorem claim_c5_witness :
    deleteSourceMaps envDel [mapA] = (Settled.rejected ⟨"EPERM"⟩, []) :=
  (claim_c5_amended_isolation envDel "rel1" []).2.2 mapA [] ⟨"EPERM"⟩ (by decide)

/-- **C6**: release-id resolution — an explicit non-empty id is used exactly
as given with the content-hash fallback never invoked; an absent (or empty)
id invokes the fallback exactly once; and every upload payload and the
descriptor's `release` field carry exactly the resolved value. -/
theorem claim_c6_release_id_resolution (plugin : HawkWebpackPlugin) (env : Env)
    (compilation : Compilation) :
    (∀ s, plugin.releaseId = some s → s ≠ "" →
      resolveReleaseId plugin.releaseId compilation = (s, 0)) ∧
    (jsFalsyOpt plugin.releaseId = true →
      resolveReleaseId plugin.releaseId compilation =
        (getReleaseId compilation, 1)) ∧
    (∀ k r, Effect.fetchE k r ∈ (applyModel plugin env compilation).2 →
      r = (resolveReleaseId plugin.releaseId compilation).1) ∧
    (∀ p r d, Effect.writeFileE p r d ∈ (applyModel plugin env compilation).2 →
      r = (resolveReleaseId plugin.releaseId compilation).1) := by
  refine ⟨?_, ?_, ?_, ?_⟩
  · intro s hs hne
    simp [resolveReleaseId, hs, jsFalsyOpt, hne]
  · intro h
    simp [resolveReleaseId, h]
  · intro k r hmem
    rcases applyModel_trace_shape plugin env compilation _ hmem with
      ⟨msg, h⟩ | ⟨msg, h⟩ | h | h | ⟨k2, h⟩ | ⟨p2, h⟩ | ⟨_, m, _, h⟩
    · exact absurd h (by simp)
    · exact absurd h (by simp)
    · exact absurd h (by simp)
    · exact absurd h (by simp)
    · simp only [Effect.fetchE.injEq] at h
      exact h.2
    · exact absurd h (by simp)
    · exact absurd h (by simp)
  · intro p r d hmem
    rcases applyModel_trace_shape plugin env compilation _ hmem with
      ⟨msg, h⟩ | ⟨msg, h⟩ | h | h | ⟨k2, h⟩ | ⟨p2, h⟩ | ⟨_, m, _, h⟩
    · exact absurd h (by simp)
    · exact absurd h (by simp)
    · exact absurd h (by simp)
    · exact absurd h (by simp)
    · exact absurd h (by simp)
    · simp only [Effect.writeFileE.injEq] at h
      exact h.2.1
    · exact absurd h (by simp)

/-- Witness for C6: with no configured release id, the fallback runs exactly
once and yields the compilation hash. -/
theorem claim_c6_witness :
    resolveReleaseId none comp1 = (comp1.hash, 1) :=
  (claim_c6_release_id_resolution
    { pluginA with releaseId := none } envAllOk comp1).2.1 rfl

/-- **C7**: a build whose scan yields no source-map record resolves with no
external effect — no collector request, no descriptor write, no deletion. -/
theorem claim_c7_empty_scan_no_effects (plugin : HawkWebpackPlugin) (env : Env)
    (compilation : Compilation) (h : findSourceMaps compilation = []) :
    (applyModel plugin env compilation).1 = ApplyOutcome.resolved ∧
    ∀ e ∈ (applyModel plugin env compilation).2, Effect.isExternal e = false := by
  by_cases hid : jsFalsyOpt plugin.integrationId = true
  · refine ⟨by simp [applyModel, hid], ?_⟩
    intro e he
    simp only [applyModel, hid, if_true, List.mem_singleton] at he
    simp [he, Effect.isExternal]
  · refine ⟨by simp [applyModel, hid, h], ?_⟩
    intro e he
    simp [applyModel, hid, h] at he

/-- Witness for C7 at a concrete build without maps. -/
theorem claim_c7_witness :
    (applyModel pluginA envAllOk compNoMaps).1 = ApplyOutcome.resolved :=
  (claim_c7_empty_scan_no_effects pluginA envAllOk compNoMaps (by decide)).1

/-- **C8 counterexample**: the response body `"null"` parses as JSON and its
`error` field is not `false`, so the claim requires a failure log with the
`message` field; the handler instead hits the `TypeError` on
`response.message`, which the surrounding `catch` logs as an unparsed
response. -/
theorem claim_c8_counterexample :
    (handleMapResponse "main.js.map" bodyNullW =
      (Settled.fulfilled (),
        [Effect.logE ("(⌐■_■) Hawk Collector Unparsed response: \n\nnull")])) ∧
    ¬ specMapResponseBranches "main.js.map" bodyNullW
        (handleMapResponse "main.js.map" bodyNullW).2 := by
  refine ⟨rfl, ?_⟩
  intro hspec
  obtain ⟨msg, hmsg⟩ := hspec.2.1 rfl rfl
  have h1 : ("(⌐■_■) Hawk Collector Unparsed response: \n\nnull" : String) =
      "main.js.map – failed: " ++ msg := by
    have h2 := hmsg
    simp only [handleMapResponse, bodyNullW, List.cons.injEq, Effect.logE.injEq,
      and_true] at h2
    exact h2
  exact ne_append_of_head "main.js.map – failed: "
    "(⌐■_■) Hawk Collector Unparsed response: \n\nnull" msg 'm' '(' (by decide)
    (by decide) (by decide) h1

/-- **C8 (amended)**: the handler never raises (it always settles
fulfilled) and takes exactly one branch per parse outcome: success log when
the body parses truthy with `error === false`; failure log with the
`message` field for any other non-null parse; unparsed-response warning with
the raw body when parsing fails; and — the amendment — the unparsed-response
warning with the parsed value `null` when the body parses to `null` (the
`message` access raises internally and is caught by the same handler). -/
theorem claim_c8_amended_response_branches (name : String) (b : Body) :
    (handleMapResponse name b).1 = Settled.fulfilled () ∧
    (b.parse = ParseOutcome.parsedErrorFalse →
      (handleMapResponse name b).2 = [Effect.logE (name ++ " – sent")]) ∧
    (∀ msg, b.parse = ParseOutcome.parsedOther msg →
      (handleMapResponse name b).2 =
        [Effect.logE (name ++ " – failed: " ++ msg)]) ∧
    (b.parse = ParseOutcome.noParse →
      (handleMapResponse name b).2 =
        [Effect.logE ("(⌐■_■) Hawk Collector Unparsed response: \n\n" ++ b.raw)]) ∧
    (b.parse = ParseOutcome.parsedNull →
      (handleMapResponse name b).2 =
        [Effect.logE ("(⌐■_■) Hawk Collector Unparsed response: \n\nnull")]) := by
  refine ⟨?_, ?_, ?_, ?_, ?_⟩
  · cases hp : b.parse <;> simp [handleMapResponse, hp]
  · intro h
    simp [handleMapResponse, h]
  · intro msg h
    simp [handleMapResponse, h]
  · intro h
    simp [handleMapResponse, h]
  · intro h
    simp [handleMapResponse, h]

/-- Witness for the amended C8 on a successful response body. -/
theorem claim_c8_witness :
    (handleMapResponse "a.js.map" bodyOkW).2 = [Effect.logE "a.js.map – sent"] := by
  have h := (claim_c8_amended_response_branches "a.js.map" bodyOkW).2.1 rfl
  exact h

/-- **C9**: a token whose decoding does not parse as a JSON object with a
non-empty `integrationId` leaves the integration id `undefined`, so `apply`
logs the configuration error and resolves immediately — its whole trace is
that single `console.error`; in particular no upload, descriptor write or
deletion happens. -/
theorem claim_c9_invalid_token_short_circuit (args : ConstructorArgs)
    (env : Env) (compilation : Compilation)
    (h : tokenLacksId args.integrationToken = true) :
    applyModel (mkPlugin args).1 env compilation =
      (ApplyOutcome.resolved,
        [Effect.consoleErrorE "Invalid Integration Token passed."]) := by
  have hid : (mkPlugin args).1.integrationId = none := by
    simp [mkPlugin]
    exact getIntegrationId_none args.integrationToken h
  simp [applyModel, hid, jsFalsyOpt]

/-- Witness for C9 at a concrete invalid token. -/
theorem claim_c9_witness :
    applyModel (mkPlugin argsBad).1 envAllOk comp1 =
      (ApplyOutcome.resolved,
        [Effect.consoleErrorE "Invalid Integration Token passed."]) :=
  claim_c9_invalid_token_short_circuit argsBad envAllOk comp1 (by decide)

/-- **C10**: transport selection always matches the endpoint's scheme
(`isHttps` is exactly "endpoint starts with https"); a non-empty
`collectorEndpoint` override is used verbatim; and with no override the
endpoint is derived from the token's `integrationId` as
`https://<id>.k1.hawk.so/release`, which selects encrypted transport. -/
theorem claim_c10_endpoint_derivation (args : ConstructorArgs) :
    ((mkPlugin args).1.isHttps =
        jsStartsWith (mkPlugin args).1.collectorEndpoint "https") ∧
    (args.collectorEndpoint ≠ "" →
      (mkPlugin args).1.collectorEndpoint = args.collectorEndpoint) ∧
    (args.collectorEndpoint = "" →
      ∀ id, args.integrationToken = DecodedToken.json (some id) → id ≠ "" →
        (mkPlugin args).1.collectorEndpoint =
          "https://" ++ id ++ ".k1.hawk.so/release" ∧
        (mkPlugin args).1.isHttps = true) := by
  refine ⟨rfl, ?_, ?_⟩
  · intro h
    have ht : strTruthy args.collectorEndpoint = true := by
      simp [strTruthy, h]
    simp [mkPlugin, ht]
  · intro h id ht hid
    have h1 : strTruthy args.collectorEndpoint = false := by
      simp [strTruthy, h]
    have h2 : getIntegrationId args.integrationToken = (some id, []) := by
      simp [getIntegrationId, ht, hid]
    constructor
    · simp [mkPlugin, h1, h2, jsInterpolate]
    · simp only [mkPlugin, h1, h2, jsInterpolate, Bool.if_false_left]
      rfl

/-- Witness for C10: a concrete valid token with no override derives the
`https` collector endpoint. -/
theorem claim_c10_witness :
    (mkPlugin argsGood).1.collectorEndpoint = "https://abc123.k1.hawk.so/release" ∧
    (mkPlugin argsGood).1.isHttps = true := by
  have h := (claim_c10_endpoint_derivation argsGood).2.2 rfl "abc123" rfl (by decide)
  exact h

end Hawk
